import Mathlib

/-!
A verification development for the interval aggregation engine of the
voice-bot repository (`src/bot.py`): interval clamping, calendar-boundary
splitting, histogram aggregation (hour-of-day, weekday, calendar-day,
unique users per day), the concurrency sweep and the solo-time sweep.

Timestamps are epoch seconds, modelled as `Int`.  A missing `left_ts`
(Python `None`) is `Option.none`.  Python dictionaries (insertion ordered)
are modelled as association lists; Python sets of user ids are modelled as
duplicate-free lists.  The `zoneinfo` timezone object is modelled by the
abstract interface `Tz` below, exposing exactly the civil-time operations
the loops in `src/bot.py` perform, together with the facts about calendar
arithmetic the loops rely on (boundaries strictly advance; an hour of day
is one of 24; a weekday is one of 7).
-/

/-- A session row as consumed by the hour/weekday/day aggregators:
`(joined_ts, left_ts, channel_id)`. -/
structure Row3 where
  joined_ts : Int
  left_ts : Option Int
  channel_id : Int

/-- A session row as consumed by the peak/solo/unique aggregators:
`(user_id, channel_id, joined_ts, left_ts)`. -/
structure Row4 where
  user_id : Int
  channel_id : Int
  joined_ts : Int
  left_ts : Option Int

/-- Python truthiness in `left_ts or now_` (src/bot.py line 98 and its
copies): both `None` and `0` fall back to `now_`. -/
def orNow (left : Option Int) (now_ : Int) : Int :=
  match left with
  | none => now_
  | some v => if v = 0 then now_ else v

/-- The guard `if afk_channel_id and ch_id == afk_channel_id: continue`
(src/bot.py lines 93-95 and its copies).  `afk_channel_id` is `int | None`;
both `None` and `0` are falsy, so they disable the exclusion. -/
def isExcluded (afk : Option Int) (ch : Int) : Bool :=
  match afk with
  | none => false
  | some a => if a = 0 then false else decide (ch = a)

/-- The window clamp of src/bot.py lines 96-100 (and its copies in every
aggregator): `start = max(joined_ts, since_ts)`,
`end = min(left_ts or now_, now_)`, and the session is dropped
(`continue`) when `end <= start`. -/
def clampInterval (since_ts now_ joined : Int) (left : Option Int) : Option (Int × Int) :=
  let s := max joined since_ts
  let e := min (orNow left now_) now_
  if e ≤ s then none else some (s, e)

/-- Abstract interface of a resolved timezone object, exposing exactly the
operations the aggregation loops perform on `datetime.fromtimestamp(t, tz)`:
the epoch timestamp of the next top-of-local-hour, the epoch timestamp of
the next local midnight, the local hour of day, the local weekday
(Monday = 0), and the local calendar date (the `"%Y-%m-%d"` key, modelled
injectively as a local day index).  The propositional fields record the
calendar facts the loops rely on. -/
structure Tz where
  nextHour : Int → Int
  nextDay : Int → Int
  hourOf : Int → Nat
  weekdayOf : Int → Nat
  dayKey : Int → Int
  nextHour_gt : ∀ t, t < nextHour t
  nextDay_gt : ∀ t, t < nextDay t
  hourOf_lt : ∀ t, hourOf t < 24
  weekdayOf_lt : ∀ t, weekdayOf t < 7

/-- The fallback zone `timezone.utc` used when `zoneinfo.ZoneInfo(tz_name)`
raises (src/bot.py lines 86-90 and its copies): fixed offset zero, so local
civil time is plain epoch arithmetic.  Epoch day 0 (1970-01-01) is a
Thursday, hence the `+ 3` in the Monday-first weekday. -/
def utcTz : Tz where
  nextHour t := (t / 3600 + 1) * 3600
  nextDay t := (t / 86400 + 1) * 86400
  hourOf t := ((t / 3600) % 24).toNat
  weekdayOf t := ((t / 86400 + 3) % 7).toNat
  dayKey t := t / 86400
  nextHour_gt t := by show t < (t / 3600 + 1) * 3600; omega
  nextDay_gt t := by show t < (t / 86400 + 1) * 86400; omega
  hourOf_lt t := by show ((t / 3600) % 24).toNat < 24; omega
  weekdayOf_lt t := by show ((t / 86400 + 3) % 7).toNat < 7; omega

/-- Resolution of a timezone name: `zoneinfo.ZoneInfo(tz_name)` is a lookup
that may fail (modelled as an `Option`-valued database), and the
`except Exception: tz = timezone.utc` arm substitutes `utcTz`. -/
def resolveTz (tzdb : String → Option Tz) (tz_name : String) : Tz :=
  (tzdb tz_name).getD utcTz

/-- Python `d.get(k, default)` on an insertion-ordered dictionary modelled as an
association list. -/
def dictGet (m : List (Int × Int)) (k d : Int) : Int :=
  match m with
  | [] => d
  | (k', v) :: rest => if k' = k then v else dictGet rest k d

/-- Python `d[k] = v` on a dictionary: update in place, or append a new key. -/
def dictSet (m : List (Int × Int)) (k v : Int) : List (Int × Int) :=
  match m with
  | [] => [(k, v)]
  | (k', v') :: rest => if k' = k then (k', v) :: rest else (k', v') :: dictSet rest k v

/-- Python `d[k] = d.get(k, 0) + v` on a dictionary. -/
def dictAdd (m : List (Int × Int)) (k v : Int) : List (Int × Int) :=
  match m with
  | [] => [(k, v)]
  | (k', v') :: rest => if k' = k then (k', v' + v) :: rest else (k', v') :: dictAdd rest k v

/-- Python `day_users.setdefault(day_key, set()).add(user_id)` on a dictionary of
sets (src/bot.py lines 212-217); the set is a duplicate-free list. -/
def dictAddUser (m : List (Int × List Int)) (k u : Int) : List (Int × List Int) :=
  match m with
  | [] => [(k, [u])]
  | (k', s) :: rest =>
    if k' = k then (k', if u ∈ s then s else s ++ [u]) :: rest
    else (k', s) :: dictAddUser rest k u

/-- Python `per_ch.setdefault(ch_id, []).append(e)` on a dictionary of event lists
(src/bot.py lines 280-281). -/
def pushEvent (m : List (Int × List (Int × Int × Int))) (k : Int) (e : Int × Int × Int) :
    List (Int × List (Int × Int × Int)) :=
  match m with
  | [] => [(k, [e])]
  | (k', es) :: rest =>
    if k' = k then (k', es ++ [e]) :: rest
    else (k', es) :: pushEvent rest k e

/-- The sum of the values of a dictionary. -/
def valuesSum (m : List (Int × Int)) : Int :=
  (m.map Prod.snd).sum

/-- One insertion step of a stable sort: place `x` before the first element
it compares `le` to. -/
def insertSorted {α : Type} (le : α → α → Bool) (x : α) : List α → List α
  | [] => [x]
  | y :: ys => if le x y then x :: y :: ys else y :: insertSorted le x ys

/-- Python's `list.sort` is a stable sort by the given key; insertion sort
realises exactly that contract (equal keys keep their original order). -/
def sortEvents {α : Type} (le : α → α → Bool) : List α → List α
  | [] => []
  | x :: xs => insertSorted le x (sortEvents le xs)

/-- The comparison `events.sort()` uses in `peak_concurrency` (src/bot.py
line 240): lexicographic order on the `(timestamp, delta)` tuples. -/
def peakLe (x y : Int × Int) : Bool :=
  decide (x.1 < y.1 ∨ (x.1 = y.1 ∧ x.2 ≤ y.2))

/-- The comparison `events.sort(key=lambda x: (x[0], x[2]))` uses in
`solo_seconds_per_user` (src/bot.py line 286): events are
`(timestamp, user_id, delta)` and the key is `(timestamp, delta)`. -/
def soloLe (x y : Int × Int × Int) : Bool :=
  decide (x.1 < y.1 ∨ (x.1 = y.1 ∧ x.2.2 ≤ y.2.2))

/-- The event-building loop of `peak_concurrency` (src/bot.py lines
231-239): per non-excluded, non-empty clamped session, append
`(start, +1)` and `(end, -1)`. -/
def peakEvents (rows : List Row4) (since_ts now_ : Int) (afk : Option Int) :
    List (Int × Int) :=
  rows.foldl (fun evs r =>
    if isExcluded afk r.channel_id then evs
    else
      match clampInterval since_ts now_ r.joined_ts r.left_ts with
      | none => evs
      | some (s, e) => evs ++ [(s, 1), (e, -1)]) []

/-- The sweep loop of `peak_concurrency` (src/bot.py lines 242-257):
running counter `cur`, overall peak, and per-day peaks keyed by the
calendar date of each event's own timestamp. -/
def peakSweep (tz : Tz) : List (Int × Int) → Int → Int → List (Int × Int) → Int × List (Int × Int)
  | [], _cur, overall, perDay => (overall, perDay)
  | (ts, delta) :: rest, cur, overall, perDay =>
    let cur' := cur + delta
    let overall' := if overall < cur' then cur' else overall
    let perDay' :=
      if dictGet perDay (tz.dayKey ts) 0 < cur' then dictSet perDay (tz.dayKey ts) cur'
      else perDay
    peakSweep tz rest cur' overall' perDay'

/-- Embedding of `peak_concurrency(rows, since_ts, tz_name, afk_channel_id)` (src/bot.py
lines 221-257).  The wall-clock read `now_ = now_ts()` is the `now_`
argument; the timezone resolution of lines 223-227 is `resolveTz`. -/
def peak_concurrency (rows : List Row4) (since_ts now_ : Int) (tzdb : String → Option Tz)
    (tz_name : String) (afk : Option Int) : Int × List (Int × Int) :=
  peakSweep (resolveTz tzdb tz_name) (sortEvents peakLe (peakEvents rows since_ts now_ afk)) 0 0 []

/-- The per-channel event map of `solo_seconds_per_user` (src/bot.py lines
271-281): per non-excluded, non-empty clamped session, append
`(start, uid, +1)` and `(end, uid, -1)` to that channel's stream. -/
def soloEventsPerChannel (rows : List Row4) (since_ts now_ : Int) (afk : Option Int) :
    List (Int × List (Int × Int × Int)) :=
  rows.foldl (fun m r =>
    if isExcluded afk r.channel_id then m
    else
      match clampInterval since_ts now_ r.joined_ts r.left_ts with
      | none => m
      | some (s, e) =>
        pushEvent (pushEvent m r.channel_id (s, r.user_id, 1)) r.channel_id (e, r.user_id, -1)) []

/-- The per-channel sweep of `solo_seconds_per_user` (src/bot.py lines
287-300): before applying each event, if exactly one user is present,
attribute the elapsed time since the previous event to that user; then
apply the event (`add` / `discard`) and advance `prev_t`. -/
def soloSweep : List (Int × Int × Int) → List Int → Option Int → List (Int × Int) →
    List (Int × Int)
  | [], _present, _prevT, totals => totals
  | (t, uid, delta) :: rest, present, prevT, totals =>
    let totals' :=
      match prevT, present with
      | some pt, [onlyUid] => dictAdd totals onlyUid (t - pt)
      | _, _ => totals
    let present' :=
      if delta = 1 then (if uid ∈ present then present else present ++ [uid])
      else present.erase uid
    soloSweep rest present' (some t) totals'

/-- The hour-splitting loop of `aggregate_seconds_by_hour` (src/bot.py
lines 102-110): walk `cur` from `start` to `end`, cutting at each next
top-of-local-hour, adding each span to the bucket of `cur`'s local hour. -/
def splitHours (tz : Tz) (ed : Int) (cur : Int) (buckets : List Int) : List Int :=
  if cur < ed then
    splitHours tz ed (min (tz.nextHour cur) ed)
      (buckets.set (tz.hourOf cur) (buckets.getD (tz.hourOf cur) 0 + (min (tz.nextHour cur) ed - cur)))
  else buckets
termination_by (ed - cur).toNat
decreasing_by
  have h2 := tz.nextHour_gt cur
  omega

/-- The day-splitting loop of `aggregate_seconds_by_weekday` (src/bot.py
lines 132-140): cut at each next local midnight, adding each span to the
bucket of `cur`'s local weekday (Monday first). -/
def splitWeekdays (tz : Tz) (ed : Int) (cur : Int) (buckets : List Int) : List Int :=
  if cur < ed then
    splitWeekdays tz ed (min (tz.nextDay cur) ed)
      (buckets.set (tz.weekdayOf cur) (buckets.getD (tz.weekdayOf cur) 0 + (min (tz.nextDay cur) ed - cur)))
  else buckets
termination_by (ed - cur).toNat
decreasing_by
  have h2 := tz.nextDay_gt cur
  omega

/-- The day-splitting loop of `aggregate_seconds_by_day` (src/bot.py lines
163-171): cut at each next local midnight, adding each span to the
dictionary entry of `cur`'s local calendar date. -/
def splitDays (tz : Tz) (ed : Int) (cur : Int) (m : List (Int × Int)) : List (Int × Int) :=
  if cur < ed then
    splitDays tz ed (min (tz.nextDay cur) ed) (dictAdd m (tz.dayKey cur) (min (tz.nextDay cur) ed - cur))
  else m
termination_by (ed - cur).toNat
decreasing_by
  have h2 := tz.nextDay_gt cur
  omega

/-- The day-walking loop of `aggregate_unique_users_by_day` (src/bot.py
lines 207-218): for each local calendar day the interval touches, add the
user id to that day's set. -/
def splitUniqueDays (tz : Tz) (ed uid : Int) (cur : Int) (m : List (Int × List Int)) :
    List (Int × List Int) :=
  if cur < ed then
    splitUniqueDays tz ed uid (min (tz.nextDay cur) ed) (dictAddUser m (tz.dayKey cur) uid)
  else m
termination_by (ed - cur).toNat
decreasing_by
  have h2 := tz.nextDay_gt cur
  omega

/-- The row loop of `aggregate_seconds_by_hour` over a resolved timezone
(src/bot.py lines 92-111): 24 zero-initialised buckets; per non-excluded,
non-empty clamped session, run the hour splitter. -/
def aggHourTz (rows : List Row3) (since_ts now_ : Int) (tz : Tz) (afk : Option Int) :
    List Int :=
  rows.foldl (fun buckets r =>
    if isExcluded afk r.channel_id then buckets
    else
      match clampInterval since_ts now_ r.joined_ts r.left_ts with
      | none => buckets
      | some (s, e) => splitHours tz e s buckets) (List.replicate 24 0)

/-- Embedding of `aggregate_seconds_by_hour(rows, since_ts, now_ts_, tz_name,
afk_channel_id)` (src/bot.py lines 84-111); the timezone resolution of
lines 86-90 is `resolveTz`. -/
def aggregate_seconds_by_hour (rows : List Row3) (since_ts now_ts_ : Int)
    (tzdb : String → Option Tz) (tz_name : String) (afk : Option Int) : List Int :=
  aggHourTz rows since_ts now_ts_ (resolveTz tzdb tz_name) afk

/-- The row loop of `aggregate_seconds_by_weekday` over a resolved timezone
(src/bot.py lines 121-141): 7 zero-initialised buckets. -/
def aggWeekdayTz (rows : List Row3) (since_ts now_ : Int) (tz : Tz) (afk : Option Int) :
    List Int :=
  rows.foldl (fun buckets r =>
    if isExcluded afk r.channel_id then buckets
    else
      match clampInterval since_ts now_ r.joined_ts r.left_ts with
      | none => buckets
      | some (s, e) => splitWeekdays tz e s buckets) (List.replicate 7 0)

/-- Embedding of `aggregate_seconds_by_weekday(rows, since_ts, now_ts_, tz_name,
afk_channel_id)` (src/bot.py lines 113-141). -/
def aggregate_seconds_by_weekday (rows : List Row3) (since_ts now_ts_ : Int)
    (tzdb : String → Option Tz) (tz_name : String) (afk : Option Int) : List Int :=
  aggWeekdayTz rows since_ts now_ts_ (resolveTz tzdb tz_name) afk

/-- The row loop of `aggregate_seconds_by_day` over a resolved timezone
(src/bot.py lines 154-172): an initially empty date-keyed dictionary. -/
def aggDayTz (rows : List Row3) (since_ts now_ : Int) (tz : Tz) (afk : Option Int) :
    List (Int × Int) :=
  rows.foldl (fun m r =>
    if isExcluded afk r.channel_id then m
    else
      match clampInterval since_ts now_ r.joined_ts r.left_ts with
      | none => m
      | some (s, e) => splitDays tz e s m) []

/-- Embedding of `aggregate_seconds_by_day(rows, since_ts, now_ts_, tz_name,
afk_channel_id)` (src/bot.py lines 143-172). -/
def aggregate_seconds_by_day (rows : List Row3) (since_ts now_ts_ : Int)
    (tzdb : String → Option Tz) (tz_name : String) (afk : Option Int) : List (Int × Int) :=
  aggDayTz rows since_ts now_ts_ (resolveTz tzdb tz_name) afk

/-- The row loop of `aggregate_unique_users_by_day` over a resolved
timezone (src/bot.py lines 197-219). -/
def aggUniqueTz (rows : List Row4) (since_ts now_ : Int) (tz : Tz) (afk : Option Int) :
    List (Int × List Int) :=
  rows.foldl (fun m r =>
    if isExcluded afk r.channel_id then m
    else
      match clampInterval since_ts now_ r.joined_ts r.left_ts with
      | none => m
      | some (s, e) => splitUniqueDays tz e r.user_id s m) []

/-- Embedding of `aggregate_unique_users_by_day(rows, since_ts, tz_name,
afk_channel_id)` (src/bot.py lines 189-219); the wall-clock read
`now_ = now_ts()` of line 198 is the `now_` argument. -/
def aggregate_unique_users_by_day (rows : List Row4) (since_ts now_ : Int)
    (tzdb : String → Option Tz) (tz_name : String) (afk : Option Int) :
    List (Int × List Int) :=
  aggUniqueTz rows since_ts now_ (resolveTz tzdb tz_name) afk

/-- Embedding of `solo_seconds_per_user(rows, since_ts, tz_name, afk_channel_id)`
(src/bot.py lines 259-301).  The wall-clock read `now_ = now_ts()` is the
`now_` argument.  The resolved timezone of lines 264-268 is never used by
the body, so the `tzdb`/`tz_name` arguments are carried but ignored. -/
def solo_seconds_per_user (rows : List Row4) (since_ts now_ : Int)
    (_tzdb : String → Option Tz) (_tz_name : String) (afk : Option Int) : List (Int × Int) :=
  (soloEventsPerChannel rows since_ts now_ afk).foldl
    (fun totals chEvs => soloSweep (sortEvents soloLe chEvs.2) [] none totals) []

/-! ### Helper lemmas: conservation of the boundary splitters -/

/-- Updating `buckets[i] += v` adds exactly `v` to the bucket total when `i` is in
range. -/
lemma sum_set_getD (b : List Int) (i : Nat) (v : Int) (h : i < b.length) :
    (b.set i (b.getD i 0 + v)).sum = b.sum + v := by
  induction b generalizing i with
  | nil => simp at h
  | cons x xs ih =>
    cases i with
    | zero => simp; ring
    | succ n =>
      simp only [List.set_cons_succ, List.getD_cons_succ, List.sum_cons]
      rw [ih n (by simpa using h)]
      ring

/-- Updating `d[k] = d.get(k, 0) + v` adds exactly `v` to the total of the values. -/
lemma valuesSum_dictAdd (m : List (Int × Int)) (k v : Int) :
    valuesSum (dictAdd m k v) = valuesSum m + v := by
  induction m with
  | nil => simp [dictAdd, valuesSum]
  | cons p rest ih =>
    obtain ⟨k', v'⟩ := p
    by_cases h : k' = k
    · simp [dictAdd, h, valuesSum]; ring
    · simp only [dictAdd, if_neg h, valuesSum, List.map_cons, List.sum_cons] at *
      rw [ih]; ring

/-- The hour splitter preserves the shape of the 24 buckets and adds
exactly the clamped duration to their total. -/
lemma splitHours_spec (tz : Tz) (ed : Int) : ∀ (cur : Int) (b : List Int), b.length = 24 →
    (splitHours tz ed cur b).length = 24 ∧
    (splitHours tz ed cur b).sum = b.sum + max 0 (ed - cur) := by
  intro cur b
  induction cur, b using splitHours.induct tz ed with
  | case1 cur b h ih =>
    intro hb
    rw [splitHours, if_pos h]
    have hhour := tz.hourOf_lt cur
    have hnext := tz.nextHour_gt cur
    have hset : (b.set (tz.hourOf cur) (b.getD (tz.hourOf cur) 0 + (min (tz.nextHour cur) ed - cur))).length = 24 := by
      simpa using hb
    obtain ⟨hlen, hsum⟩ := ih hset
    refine ⟨hlen, ?_⟩
    rw [hsum, sum_set_getD _ _ _ (by omega)]
    omega
  | case2 cur b h =>
    intro hb
    rw [splitHours, if_neg h]
    constructor
    · exact hb
    · omega

/-- The weekday splitter preserves the shape of the 7 buckets and adds
exactly the clamped duration to their total. -/
lemma splitWeekdays_spec (tz : Tz) (ed : Int) : ∀ (cur : Int) (b : List Int), b.length = 7 →
    (splitWeekdays tz ed cur b).length = 7 ∧
    (splitWeekdays tz ed cur b).sum = b.sum + max 0 (ed - cur) := by
  intro cur b
  induction cur, b using splitWeekdays.induct tz ed with
  | case1 cur b h ih =>
    intro hb
    rw [splitWeekdays, if_pos h]
    have hday := tz.weekdayOf_lt cur
    have hnext := tz.nextDay_gt cur
    have hset : (b.set (tz.weekdayOf cur) (b.getD (tz.weekdayOf cur) 0 + (min (tz.nextDay cur) ed - cur))).length = 7 := by
      simpa using hb
    obtain ⟨hlen, hsum⟩ := ih hset
    refine ⟨hlen, ?_⟩
    rw [hsum, sum_set_getD _ _ _ (by omega)]
    omega
  | case2 cur b h =>
    intro hb
    rw [splitWeekdays, if_neg h]
    constructor
    · exact hb
    · omega

/-- The calendar-day splitter adds exactly the clamped duration to the
total of the day dictionary's values. -/
lemma splitDays_spec (tz : Tz) (ed : Int) : ∀ (cur : Int) (m : List (Int × Int)),
    valuesSum (splitDays tz ed cur m) = valuesSum m + max 0 (ed - cur) := by
  intro cur m
  induction cur, m using splitDays.induct tz ed with
  | case1 cur m h ih =>
    rw [splitDays, if_pos h]
    have hnext := tz.nextDay_gt cur
    rw [ih, valuesSum_dictAdd]
    omega
  | case2 cur m h =>
    rw [splitDays, if_neg h]
    omega

/-- The duration a row contributes after the exclusion filter and the
window clamp: zero when excluded or empty, `end - start` otherwise. -/
def clampedSpan (since_ts now_ : Int) (afk : Option Int) (r : Row3) : Int :=
  if isExcluded afk r.channel_id then 0
  else
    match clampInterval since_ts now_ r.joined_ts r.left_ts with
    | none => 0
    | some (s, e) => e - s

/-- What a successful clamp returns: exactly the `max`/`min` formulas of
the code, with `start < end`. -/
lemma clampInterval_some (since_ts now_ j : Int) (l : Option Int) (s e : Int)
    (h : clampInterval since_ts now_ j l = some (s, e)) :
    s = max j since_ts ∧ e = min (orNow l now_) now_ ∧ s < e := by
  simp only [clampInterval] at h
  split at h
  · exact absurd h (by simp)
  · rename_i hlt
    obtain ⟨rfl, rfl⟩ := Prod.mk.injEq .. ▸ Option.some.injEq .. ▸ h
    exact ⟨rfl, rfl, by omega⟩

/-- Row loop of the hour aggregator: shape preserved, totals accumulate the
clamped spans. -/
lemma aggHour_fold (tz : Tz) (since_ts now_ : Int) (afk : Option Int) :
    ∀ (rows : List Row3) (b : List Int), b.length = 24 →
    (rows.foldl (fun buckets r =>
      if isExcluded afk r.channel_id then buckets
      else
        match clampInterval since_ts now_ r.joined_ts r.left_ts with
        | none => buckets
        | some (s, e) => splitHours tz e s buckets) b).length = 24 ∧
    (rows.foldl (fun buckets r =>
      if isExcluded afk r.channel_id then buckets
      else
        match clampInterval since_ts now_ r.joined_ts r.left_ts with
        | none => buckets
        | some (s, e) => splitHours tz e s buckets) b).sum
      = b.sum + (rows.map (clampedSpan since_ts now_ afk)).sum := by
  intro rows
  induction rows with
  | nil => intro b hb; simp [hb]
  | cons r rest ih =>
    intro b hb
    simp only [List.foldl_cons, List.map_cons, List.sum_cons]
    by_cases hex : isExcluded afk r.channel_id
    · have hsp : clampedSpan since_ts now_ afk r = 0 := by simp [clampedSpan, hex]
      obtain ⟨h1, h2⟩ := ih b hb
      rw [if_pos hex]
      exact ⟨h1, by rw [h2, hsp]; ring⟩
    · rw [if_neg hex]
      rcases hcl : clampInterval since_ts now_ r.joined_ts r.left_ts with _ | ⟨s, e⟩
      · have hsp : clampedSpan since_ts now_ afk r = 0 := by
          simp [clampedSpan, hex, hcl]
        obtain ⟨h1, h2⟩ := ih b hb
        exact ⟨h1, by rw [h2, hsp]; ring⟩
      · have hse := (clampInterval_some _ _ _ _ _ _ hcl).2.2
        have hsp : clampedSpan since_ts now_ afk r = e - s := by
          simp [clampedSpan, hex, hcl]
        obtain ⟨hl, hs⟩ := splitHours_spec tz e s b hb
        obtain ⟨h1, h2⟩ := ih (splitHours tz e s b) hl
        refine ⟨h1, ?_⟩
        rw [h2, hs, hsp]
        omega

/-- Row loop of the weekday aggregator: shape preserved, totals accumulate
the clamped spans. -/
lemma aggWeekday_fold (tz : Tz) (since_ts now_ : Int) (afk : Option Int) :
    ∀ (rows : List Row3) (b : List Int), b.length = 7 →
    (rows.foldl (fun buckets r =>
      if isExcluded afk r.channel_id then buckets
      else
        match clampInterval since_ts now_ r.joined_ts r.left_ts with
        | none => buckets
        | some (s, e) => splitWeekdays tz e s buckets) b).length = 7 ∧
    (rows.foldl (fun buckets r =>
      if isExcluded afk r.channel_id then buckets
      else
        match clampInterval since_ts now_ r.joined_ts r.left_ts with
        | none => buckets
        | some (s, e) => splitWeekdays tz e s buckets) b).sum
      = b.sum + (rows.map (clampedSpan since_ts now_ afk)).sum := by
  intro rows
  induction rows with
  | nil => intro b hb; simp [hb]
  | cons r rest ih =>
    intro b hb
    simp only [List.foldl_cons, List.map_cons, List.sum_cons]
    by_cases hex : isExcluded afk r.channel_id
    · have hsp : clampedSpan since_ts now_ afk r = 0 := by simp [clampedSpan, hex]
      obtain ⟨h1, h2⟩ := ih b hb
      rw [if_pos hex]
      exact ⟨h1, by rw [h2, hsp]; ring⟩
    · rw [if_neg hex]
      rcases hcl : clampInterval since_ts now_ r.joined_ts r.left_ts with _ | ⟨s, e⟩
      · have hsp : clampedSpan since_ts now_ afk r = 0 := by
          simp [clampedSpan, hex, hcl]
        obtain ⟨h1, h2⟩ := ih b hb
        exact ⟨h1, by rw [h2, hsp]; ring⟩
      · have hse := (clampInterval_some _ _ _ _ _ _ hcl).2.2
        have hsp : clampedSpan since_ts now_ afk r = e - s := by
          simp [clampedSpan, hex, hcl]
        obtain ⟨hl, hs⟩ := splitWeekdays_spec tz e s b hb
        obtain ⟨h1, h2⟩ := ih (splitWeekdays tz e s b) hl
        refine ⟨h1, ?_⟩
        rw [h2, hs, hsp]
        omega

/-- Row loop of the calendar-day aggregator: the dictionary's value total
accumulates the clamped spans. -/
lemma aggDay_fold (tz : Tz) (since_ts now_ : Int) (afk : Option Int) :
    ∀ (rows : List Row3) (m : List (Int × Int)),
    valuesSum (rows.foldl (fun m r =>
      if isExcluded afk r.channel_id then m
      else
        match clampInterval since_ts now_ r.joined_ts r.left_ts with
        | none => m
        | some (s, e) => splitDays tz e s m) m)
      = valuesSum m + (rows.map (clampedSpan since_ts now_ afk)).sum := by
  intro rows
  induction rows with
  | nil => intro m; simp
  | cons r rest ih =>
    intro m
    simp only [List.foldl_cons, List.map_cons, List.sum_cons]
    by_cases hex : isExcluded afk r.channel_id
    · have hsp : clampedSpan since_ts now_ afk r = 0 := by simp [clampedSpan, hex]
      rw [if_pos hex]
      rw [ih m, hsp]; ring
    · rw [if_neg hex]
      rcases hcl : clampInterval since_ts now_ r.joined_ts r.left_ts with _ | ⟨s, e⟩
      · have hsp : clampedSpan since_ts now_ afk r = 0 := by
          simp [clampedSpan, hex, hcl]
        rw [ih m, hsp]; ring
      · have hse := (clampInterval_some _ _ _ _ _ _ hcl).2.2
        have hsp : clampedSpan since_ts now_ afk r = e - s := by
          simp [clampedSpan, hex, hcl]
        rw [ih, splitDays_spec, hsp]
        omega

/-- C1: For every list of session rows, every window `[since, now]` and
every timezone, the sum of the 24 hour-of-day buckets, the sum of the 7
weekday buckets, and the sum of the values of the calendar-day mapping are
all equal, each being exactly the sum of `end - start` over all clamped,
non-excluded intervals of those rows: the boundary splitters lose nothing
and double count nothing. -/
theorem C1_conservation (rows : List Row3) (since_ts now_ts_ : Int)
    (tzdb : String → Option Tz) (tz_name : String) (afk : Option Int) :
    (aggregate_seconds_by_hour rows since_ts now_ts_ tzdb tz_name afk).sum
      = (rows.map (clampedSpan since_ts now_ts_ afk)).sum ∧
    (aggregate_seconds_by_weekday rows since_ts now_ts_ tzdb tz_name afk).sum
      = (rows.map (clampedSpan since_ts now_ts_ afk)).sum ∧
    valuesSum (aggregate_seconds_by_day rows since_ts now_ts_ tzdb tz_name afk)
      = (rows.map (clampedSpan since_ts now_ts_ afk)).sum := by
  refine ⟨?_, ?_, ?_⟩
  · have h := (aggHour_fold (resolveTz tzdb tz_name) since_ts now_ts_ afk rows
      (List.replicate 24 0) (by simp)).2
    simpa [aggregate_seconds_by_hour, aggHourTz] using h
  · have h := (aggWeekday_fold (resolveTz tzdb tz_name) since_ts now_ts_ afk rows
      (List.replicate 7 0) (by simp)).2
    simpa [aggregate_seconds_by_weekday, aggWeekdayTz] using h
  · have h := aggDay_fold (resolveTz tzdb tz_name) since_ts now_ts_ afk rows []
    simpa [aggregate_seconds_by_day, aggDayTz, valuesSum] using h

/-! ### Clamp-level facts and the concrete sweep examples -/

/-- A `left_ts` equal to `0` falls through `left_ts or now_` exactly like a
missing `left_ts`. -/
lemma clampInterval_left_zero (since_ts now_ j : Int) :
    clampInterval since_ts now_ j (some 0) = clampInterval since_ts now_ j none := by
  simp [clampInterval, orNow]

/-- C3: `peak_concurrency` on the three sessions `[0,100)`, `[10,50)`,
`[20,30)` in one non-excluded channel, inside the window `[0, 200]`,
reports an overall peak of 3. -/
theorem C3_peak_three :
    (peak_concurrency [⟨1, 1, 0, some 100⟩, ⟨2, 1, 10, some 50⟩, ⟨3, 1, 20, some 30⟩]
      0 200 (fun _ => none) "UTC" none).fst = 3 := by
  decide

/-- C2, counterexample: with sessions `[0,100)` for user 1 and `[40,60)`
for user 2 in one channel, user 1's solo time is not 60 (it is 80: the
non-overlapping portions `[0,40)` and `[60,100)` have lengths 40 and 40). -/
theorem C2_counterexample :
    ¬ (dictGet (solo_seconds_per_user [⟨1, 5, 0, some 100⟩, ⟨2, 5, 40, some 60⟩]
        0 200 (fun _ => none) "UTC" none) 1 0 = 60) := by
  decide

/-- C2, amended: for a single channel with only session `[0,100)` for
user 1, user 1's solo seconds equal 100; adding session `[40,60)` for
user 2 reduces user 1's solo seconds to 80 (the portions `[0,40)` and
`[60,100)` where user 1 is alone), and user 2's solo seconds are 0. -/
theorem C2_amended :
    dictGet (solo_seconds_per_user [⟨1, 5, 0, some 100⟩]
      0 200 (fun _ => none) "UTC" none) 1 0 = 100 ∧
    dictGet (solo_seconds_per_user [⟨1, 5, 0, some 100⟩, ⟨2, 5, 40, some 60⟩]
      0 200 (fun _ => none) "UTC" none) 1 0 = 80 ∧
    dictGet (solo_seconds_per_user [⟨1, 5, 0, some 100⟩, ⟨2, 5, 40, some 60⟩]
      0 200 (fun _ => none) "UTC" none) 2 0 = 0 := by
  refine ⟨by decide, by decide, by decide⟩

/-- The clamp written the way claim C4 words it: the end falls back to
`now` only when `left_ts` is absent (`None`), not when it is falsy. -/
def clampIntervalSpec (since_ts now_ joined : Int) (left : Option Int) : Option (Int × Int) :=
  let s := max joined since_ts
  let e := min (match left with | none => now_ | some v => v) now_
  if e ≤ s then none else some (s, e)

/-- C4, counterexample: for a session with `left_ts = 0` the code's clamp
differs from `end = min(left_ts if present else now, now)`: the code keeps
the interval `[10, 100)` alive while the claimed formula drops it. -/
theorem C4_counterexample :
    clampInterval 0 100 10 (some 0) ≠ clampIntervalSpec 0 100 10 (some 0) := by
  decide

/-- C4, amended: each aggregator clamps a session to
`start = max(joined_ts, since)` and `end = min(left_ts if present and
nonzero else now, now)`, drops it silently when `end <= start`, and every
surviving interval satisfies `since <= start < end <= now`. -/
theorem C4_amended (since_ts now_ j : Int) (l : Option Int) :
    (∀ s e, clampInterval since_ts now_ j l = some (s, e) →
      s = max j since_ts ∧ e = min (orNow l now_) now_ ∧
      since_ts ≤ s ∧ s < e ∧ e ≤ now_) ∧
    (min (orNow l now_) now_ ≤ max j since_ts → clampInterval since_ts now_ j l = none) := by
  constructor
  · intro s e h
    obtain ⟨hs, he, hlt⟩ := clampInterval_some _ _ _ _ _ _ h
    refine ⟨hs, he, ?_, hlt, ?_⟩
    · rw [hs]; exact le_max_right _ _
    · rw [he]; exact min_le_right _ _
  · intro h
    simp only [clampInterval]
    rw [if_pos h]

/-- Witness for `C4_amended` at the session `joined = 10`, `left = 50`,
window `[0, 100]` (surviving case) and at `joined = 200` (dropped case). -/
theorem C4_amended_witness :
    ((10 : Int) = max 10 0 ∧ (50 : Int) = min (orNow (some 50) 100) 100 ∧
     (0 : Int) ≤ 10 ∧ (10 : Int) < 50 ∧ (50 : Int) ≤ 100) ∧
    clampInterval 0 100 200 (some 50) = none :=
  ⟨(C4_amended 0 100 10 (some 50)).1 10 50 (by decide),
   (C4_amended 0 100 200 (some 50)).2 (by decide)⟩

/-- C9: a session with no `left_ts` clamps its end to exactly the `now`
instant of the invocation — the surviving interval always ends at `now_`,
never at a stored value. -/
theorem C9_open_session_clamp (since_ts now_ j : Int) :
    clampInterval since_ts now_ j none =
      if now_ ≤ max j since_ts then none else some (max j since_ts, now_) := by
  simp [clampInterval, orNow]

/-- C10: a session whose `left_ts` is the integer 0 is treated exactly
like an open session — `left_ts or now_` yields `now_`, the clamp agrees
with the `left_ts = None` clamp, and an aggregator sees no difference
between such a row and an open row. -/
theorem C10_zero_left_ts :
    (∀ since_ts now_ j, clampInterval since_ts now_ j (some 0)
        = clampInterval since_ts now_ j none ∧ orNow (some 0) now_ = now_) ∧
    (∀ (j ch since_ts now_ts_ : Int) (tzdb : String → Option Tz) (tz_name : String)
        (afk : Option Int),
      aggregate_seconds_by_hour [⟨j, some 0, ch⟩] since_ts now_ts_ tzdb tz_name afk
        = aggregate_seconds_by_hour [⟨j, none, ch⟩] since_ts now_ts_ tzdb tz_name afk) := by
  constructor
  · intro since_ts now_ j
    exact ⟨clampInterval_left_zero since_ts now_ j, by simp [orNow]⟩
  · intro j ch since_ts now_ts_ tzdb tz_name afk
    simp only [aggregate_seconds_by_hour, aggHourTz, List.foldl_cons, List.foldl_nil]
    rw [clampInterval_left_zero]

/-! ### Exclusion as filtering -/

/-- With a nonzero excluded id, a guarded row loop is the same loop run on
the rows with every session of that channel removed. -/
lemma guard_fold_filter {α β : Type} (chOf : α → Int) (a : Int) (ha : a ≠ 0)
    (g : β → α → β) :
    ∀ (rows : List α) (b : β),
    rows.foldl (fun acc r => if isExcluded (some a) (chOf r) then acc else g acc r) b
      = (rows.filter (fun r => decide (chOf r ≠ a))).foldl
          (fun acc r => if isExcluded (some a) (chOf r) then acc else g acc r) b := by
  intro rows
  induction rows with
  | nil => intro b; simp
  | cons r rest ih =>
    intro b
    have hex : isExcluded (some a) (chOf r) = decide (chOf r = a) := by
      simp [isExcluded, ha]
    by_cases hch : chOf r = a
    · have hg : isExcluded (some a) (chOf r) = true := by rw [hex]; exact decide_eq_true hch
      have hf : (decide (chOf r ≠ a)) = false := by simp [hch]
      simp only [List.foldl_cons, List.filter_cons, hf, Bool.false_eq_true, if_false]
      rw [if_pos hg]
      exact ih b
    · have hg : isExcluded (some a) (chOf r) = false := by rw [hex]; simp [hch]
      have hf : (decide (chOf r ≠ a)) = true := by simp [hch]
      simp only [List.foldl_cons, List.filter_cons, hf, if_true]
      rw [if_neg (by simp [hg])]
      exact ih (g b r)

/-- C7, counterexample: invoked with excluded-channel id 0, an aggregator
does not behave as if sessions of channel 0 were removed — Python's
truthiness test `if afk_channel_id and ...` disables the exclusion for the
id 0, so a channel-0 session still counts. -/
theorem C7_counterexample :
    peak_concurrency [⟨1, 0, 0, some 10⟩] 0 100 (fun _ => none) "UTC" (some 0) ≠
      peak_concurrency (([⟨1, 0, 0, some 10⟩] : List Row4).filter
        (fun r => decide (r.channel_id ≠ 0))) 0 100 (fun _ => none) "UTC" (some 0) := by
  decide

/-- C7, amended: for every list of rows and every window, an aggregator
invoked with a nonzero excluded-channel id returns exactly the same result
as when invoked on the same rows with every session of that channel
removed (the id 0, like `None`, disables exclusion). -/
theorem C7_amended (rows3 : List Row3) (rows4 : List Row4) (since_ts now_ : Int)
    (tzdb : String → Option Tz) (tz_name : String) (a : Int) (ha : a ≠ 0) :
    aggregate_seconds_by_hour rows3 since_ts now_ tzdb tz_name (some a)
      = aggregate_seconds_by_hour (rows3.filter (fun r => decide (r.channel_id ≠ a)))
          since_ts now_ tzdb tz_name (some a) ∧
    aggregate_seconds_by_weekday rows3 since_ts now_ tzdb tz_name (some a)
      = aggregate_seconds_by_weekday (rows3.filter (fun r => decide (r.channel_id ≠ a)))
          since_ts now_ tzdb tz_name (some a) ∧
    aggregate_seconds_by_day rows3 since_ts now_ tzdb tz_name (some a)
      = aggregate_seconds_by_day (rows3.filter (fun r => decide (r.channel_id ≠ a)))
          since_ts now_ tzdb tz_name (some a) ∧
    aggregate_unique_users_by_day rows4 since_ts now_ tzdb tz_name (some a)
      = aggregate_unique_users_by_day (rows4.filter (fun r => decide (r.channel_id ≠ a)))
          since_ts now_ tzdb tz_name (some a) ∧
    peak_concurrency rows4 since_ts now_ tzdb tz_name (some a)
      = peak_concurrency (rows4.filter (fun r => decide (r.channel_id ≠ a)))
          since_ts now_ tzdb tz_name (some a) ∧
    solo_seconds_per_user rows4 since_ts now_ tzdb tz_name (some a)
      = solo_seconds_per_user (rows4.filter (fun r => decide (r.channel_id ≠ a)))
          since_ts now_ tzdb tz_name (some a) := by
  refine ⟨?_, ?_, ?_, ?_, ?_, ?_⟩
  · simp only [aggregate_seconds_by_hour, aggHourTz]
    exact guard_fold_filter (fun r => r.channel_id) a ha _ rows3 _
  · simp only [aggregate_seconds_by_weekday, aggWeekdayTz]
    exact guard_fold_filter (fun r => r.channel_id) a ha _ rows3 _
  · simp only [aggregate_seconds_by_day, aggDayTz]
    exact guard_fold_filter (fun r => r.channel_id) a ha _ rows3 _
  · simp only [aggregate_unique_users_by_day, aggUniqueTz]
    exact guard_fold_filter (fun r => r.channel_id) a ha _ rows4 _
  · have hev : peakEvents rows4 since_ts now_ (some a)
        = peakEvents (rows4.filter (fun r => decide (r.channel_id ≠ a))) since_ts now_ (some a) := by
      simp only [peakEvents]
      exact guard_fold_filter (fun r => r.channel_id) a ha _ rows4 _
    simp only [peak_concurrency, hev]
  · have hev : soloEventsPerChannel rows4 since_ts now_ (some a)
        = soloEventsPerChannel (rows4.filter (fun r => decide (r.channel_id ≠ a)))
            since_ts now_ (some a) := by
      simp only [soloEventsPerChannel]
      exact guard_fold_filter (fun r => r.channel_id) a ha _ rows4 _
    simp only [solo_seconds_per_user, hev]

/-- Witness for `C7_amended`: one row in channel 3, excluded id 3. -/
theorem C7_amended_witness :
    aggregate_seconds_by_hour [⟨0, some 10, 3⟩] 0 100 (fun _ => none) "UTC" (some 3)
      = aggregate_seconds_by_hour (([⟨0, some 10, 3⟩] : List Row3).filter
          (fun r => decide (r.channel_id ≠ 3))) 0 100 (fun _ => none) "UTC" (some 3) ∧
    aggregate_seconds_by_weekday [⟨0, some 10, 3⟩] 0 100 (fun _ => none) "UTC" (some 3)
      = aggregate_seconds_by_weekday (([⟨0, some 10, 3⟩] : List Row3).filter
          (fun r => decide (r.channel_id ≠ 3))) 0 100 (fun _ => none) "UTC" (some 3) ∧
    aggregate_seconds_by_day [⟨0, some 10, 3⟩] 0 100 (fun _ => none) "UTC" (some 3)
      = aggregate_seconds_by_day (([⟨0, some 10, 3⟩] : List Row3).filter
          (fun r => decide (r.channel_id ≠ 3))) 0 100 (fun _ => none) "UTC" (some 3) ∧
    aggregate_unique_users_by_day [⟨1, 3, 0, some 10⟩] 0 100 (fun _ => none) "UTC" (some 3)
      = aggregate_unique_users_by_day (([⟨1, 3, 0, some 10⟩] : List Row4).filter
          (fun r => decide (r.channel_id ≠ 3))) 0 100 (fun _ => none) "UTC" (some 3) ∧
    peak_concurrency [⟨1, 3, 0, some 10⟩] 0 100 (fun _ => none) "UTC" (some 3)
      = peak_concurrency (([⟨1, 3, 0, some 10⟩] : List Row4).filter
          (fun r => decide (r.channel_id ≠ 3))) 0 100 (fun _ => none) "UTC" (some 3) ∧
    solo_seconds_per_user [⟨1, 3, 0, some 10⟩] 0 100 (fun _ => none) "UTC" (some 3)
      = solo_seconds_per_user (([⟨1, 3, 0, some 10⟩] : List Row4).filter
          (fun r => decide (r.channel_id ≠ 3))) 0 100 (fun _ => none) "UTC" (some 3) :=
  C7_amended [⟨0, some 10, 3⟩] [⟨1, 3, 0, some 10⟩] 0 100 (fun _ => none) "UTC" 3 (by decide)

/-! ### Timezone resolution fallback -/

/-- C8: when the supplied timezone name does not resolve, every aggregator
substitutes the fixed UTC zone and returns the result of the same
computation performed with UTC; the call is total — it never fails. -/
theorem C8_tz_fallback (rows3 : List Row3) (rows4 : List Row4) (since_ts now_ : Int)
    (tzdb : String → Option Tz) (tz_name : String) (afk : Option Int)
    (h : tzdb tz_name = none) :
    aggregate_seconds_by_hour rows3 since_ts now_ tzdb tz_name afk
      = aggregate_seconds_by_hour rows3 since_ts now_ (fun _ => some utcTz) tz_name afk ∧
    aggregate_seconds_by_weekday rows3 since_ts now_ tzdb tz_name afk
      = aggregate_seconds_by_weekday rows3 since_ts now_ (fun _ => some utcTz) tz_name afk ∧
    aggregate_seconds_by_day rows3 since_ts now_ tzdb tz_name afk
      = aggregate_seconds_by_day rows3 since_ts now_ (fun _ => some utcTz) tz_name afk ∧
    aggregate_unique_users_by_day rows4 since_ts now_ tzdb tz_name afk
      = aggregate_unique_users_by_day rows4 since_ts now_ (fun _ => some utcTz) tz_name afk ∧
    peak_concurrency rows4 since_ts now_ tzdb tz_name afk
      = peak_concurrency rows4 since_ts now_ (fun _ => some utcTz) tz_name afk ∧
    solo_seconds_per_user rows4 since_ts now_ tzdb tz_name afk
      = solo_seconds_per_user rows4 since_ts now_ (fun _ => some utcTz) tz_name afk := by
  have hres : resolveTz tzdb tz_name = resolveTz (fun _ => some utcTz) tz_name := by
    simp [resolveTz, h]
  exact ⟨by simp only [aggregate_seconds_by_hour, hres],
    by simp only [aggregate_seconds_by_weekday, hres],
    by simp only [aggregate_seconds_by_day, hres],
    by simp only [aggregate_unique_users_by_day, hres],
    by simp only [peak_concurrency, hres],
    by simp only [solo_seconds_per_user]⟩

/-- Witness for `C8_tz_fallback`: an empty database resolves nothing. -/
theorem C8_tz_fallback_witness :
    aggregate_seconds_by_hour [⟨0, some 10, 1⟩] 0 100 (fun _ => none) "Mars/Olympus" none
      = aggregate_seconds_by_hour [⟨0, some 10, 1⟩] 0 100 (fun _ => some utcTz) "Mars/Olympus" none ∧
    aggregate_seconds_by_weekday [⟨0, some 10, 1⟩] 0 100 (fun _ => none) "Mars/Olympus" none
      = aggregate_seconds_by_weekday [⟨0, some 10, 1⟩] 0 100 (fun _ => some utcTz) "Mars/Olympus" none ∧
    aggregate_seconds_by_day [⟨0, some 10, 1⟩] 0 100 (fun _ => none) "Mars/Olympus" none
      = aggregate_seconds_by_day [⟨0, some 10, 1⟩] 0 100 (fun _ => some utcTz) "Mars/Olympus" none ∧
    aggregate_unique_users_by_day [⟨1, 1, 0, some 10⟩] 0 100 (fun _ => none) "Mars/Olympus" none
      = aggregate_unique_users_by_day [⟨1, 1, 0, some 10⟩] 0 100 (fun _ => some utcTz) "Mars/Olympus" none ∧
    peak_concurrency [⟨1, 1, 0, some 10⟩] 0 100 (fun _ => none) "Mars/Olympus" none
      = peak_concurrency [⟨1, 1, 0, some 10⟩] 0 100 (fun _ => some utcTz) "Mars/Olympus" none ∧
    solo_seconds_per_user [⟨1, 1, 0, some 10⟩] 0 100 (fun _ => none) "Mars/Olympus" none
      = solo_seconds_per_user [⟨1, 1, 0, some 10⟩] 0 100 (fun _ => some utcTz) "Mars/Olympus" none :=
  C8_tz_fallback [⟨0, some 10, 1⟩] [⟨1, 1, 0, some 10⟩] 0 100 (fun _ => none) "Mars/Olympus"
    none rfl

/-! ### Per-day peak: sampled only at event boundaries -/

/-- Reading `d.get(k, 0)` after `d[k] = v`: the written key reads back `v`. -/
lemma dictGet_dictSet_self (m : List (Int × Int)) (k v : Int) :
    dictGet (dictSet m k v) k 0 = v := by
  induction m with
  | nil => simp [dictSet, dictGet]
  | cons p rest ih =>
    obtain ⟨k', v'⟩ := p
    by_cases h : k' = k
    · simp [dictSet, dictGet, h]
    · simp [dictSet, dictGet, h, ih]

/-- Writing `d[k] = v` does not change `d.get(k', 0)` for another key. -/
lemma dictGet_dictSet_ne (m : List (Int × Int)) (k k' v : Int) (h : k ≠ k') :
    dictGet (dictSet m k v) k' 0 = dictGet m k' 0 := by
  induction m with
  | nil => simp [dictSet, dictGet, h]
  | cons p rest ih =>
    obtain ⟨k0, v0⟩ := p
    by_cases h0 : k0 = k
    · subst h0
      simp [dictSet, dictGet, h]
    · simp [dictSet, dictGet, h0, ih]

/-- The running occupancy counter of the concurrency sweep, sampled
immediately after each event whose own timestamp falls on the local
calendar day `D`. -/
def countsOn (tz : Tz) (D : Int) : List (Int × Int) → Int → List Int
  | [], _cur => []
  | (ts, delta) :: rest, cur =>
    if tz.dayKey ts = D then (cur + delta) :: countsOn tz D rest (cur + delta)
    else countsOn tz D rest (cur + delta)

/-- The per-day entry the concurrency sweep records for day `D` is the
maximum of the counter samples taken at events of day `D` (folded on top
of whatever the accumulator already holds for `D`). -/
lemma peakSweep_day (tz : Tz) (D : Int) : ∀ (evs : List (Int × Int)) (cur overall : Int)
    (perDay : List (Int × Int)),
    dictGet (peakSweep tz evs cur overall perDay).snd D 0
      = (countsOn tz D evs cur).foldl max (dictGet perDay D 0) := by
  intro evs
  induction evs with
  | nil => intro cur overall perDay; simp [peakSweep, countsOn]
  | cons ev rest ih =>
    obtain ⟨ts, delta⟩ := ev
    intro cur overall perDay
    simp only [peakSweep, countsOn]
    by_cases hday : tz.dayKey ts = D
    · rw [if_pos hday, List.foldl_cons, ih]
      congr 1
      by_cases hset : dictGet perDay (tz.dayKey ts) 0 < cur + delta
      · rw [if_pos hset, hday, dictGet_dictSet_self]
        rw [hday] at hset
        omega
      · rw [if_neg hset]
        rw [hday] at hset
        omega
    · rw [if_neg hday, ih]
      congr 1
      by_cases hset : dictGet perDay (tz.dayKey ts) 0 < cur + delta
      · rw [if_pos hset, dictGet_dictSet_ne perDay (tz.dayKey ts) D (cur + delta) hday]
      · rw [if_neg hset]

/-- If no event timestamp falls on day `D`, the sweep samples nothing
on `D`. -/
lemma countsOn_nil (tz : Tz) (D : Int) : ∀ (evs : List (Int × Int)) (cur : Int),
    (∀ e ∈ evs, tz.dayKey e.1 ≠ D) → countsOn tz D evs cur = [] := by
  intro evs
  induction evs with
  | nil => intro cur _; simp [countsOn]
  | cons ev rest ih =>
    obtain ⟨ts, delta⟩ := ev
    intro cur h
    have hts : tz.dayKey ts ≠ D := h (ts, delta) (by simp)
    simp only [countsOn, if_neg hts]
    exact ih (cur + delta) (fun e he => h e (List.mem_cons_of_mem _ he))

/-- Inserting into a list only adds the inserted element. -/
lemma mem_insertSorted {α : Type} (le : α → α → Bool) (x y : α) :
    ∀ (l : List α), y ∈ insertSorted le x l ↔ y = x ∨ y ∈ l := by
  intro l
  induction l with
  | nil => simp [insertSorted]
  | cons z zs ih =>
    by_cases h : le x z
    · simp only [insertSorted, if_pos h, List.mem_cons]
    · simp only [insertSorted, if_neg h, List.mem_cons, ih]
      tauto

/-- Sorting permutes: membership is unchanged. -/
lemma mem_sortEvents {α : Type} (le : α → α → Bool) (y : α) :
    ∀ (l : List α), y ∈ sortEvents le l ↔ y ∈ l := by
  intro l
  induction l with
  | nil => simp [sortEvents]
  | cons x xs ih =>
    simp only [sortEvents, mem_insertSorted, List.mem_cons, ih]

/-- C6: in `peak_concurrency`, the per-day peak recorded for a calendar
day `D` is exactly the maximum of the running occupancy counter sampled
immediately after the events whose own timestamps fall on `D` (0 when no
event does); in particular a session spanning midnight influences only the
days containing its two boundary events, never the event-free days in
between. -/
theorem C6_per_day_peak (rows : List Row4) (since_ts now_ : Int)
    (tzdb : String → Option Tz) (tz_name : String) (afk : Option Int) (D : Int) :
    dictGet (peak_concurrency rows since_ts now_ tzdb tz_name afk).snd D 0
      = (countsOn (resolveTz tzdb tz_name) D
          (sortEvents peakLe (peakEvents rows since_ts now_ afk)) 0).foldl max 0 ∧
    ((∀ e ∈ peakEvents rows since_ts now_ afk, (resolveTz tzdb tz_name).dayKey e.1 ≠ D) →
      dictGet (peak_concurrency rows since_ts now_ tzdb tz_name afk).snd D 0 = 0) := by
  constructor
  · simp only [peak_concurrency]
    rw [peakSweep_day]
    rfl
  · intro h
    simp only [peak_concurrency]
    rw [peakSweep_day, countsOn_nil]
    · rfl
    · intro e he
      exact h e ((mem_sortEvents peakLe e _).1 he)

/-- Witness for `C6_per_day_peak`: one session from epoch 10000 to epoch
200000 spans local days 0, 1, 2 of `utcTz` but has boundary events only on
days 0 and 2, so day 1 records no peak. -/
theorem C6_per_day_peak_witness :
    dictGet (peak_concurrency [⟨1, 1, 10000, some 200000⟩] 0 300000
      (fun _ => none) "UTC" none).snd 1 0 = 0 :=
  (C6_per_day_peak [⟨1, 1, 10000, some 200000⟩] 0 300000 (fun _ => none) "UTC" none 1).2
    (by decide)

/-! ### The sort's leave-before-join tie-break -/

/-- Inserting into a sorted list (total, transitive comparison) keeps it
sorted. -/
lemma pairwise_insertSorted {α : Type} (le : α → α → Bool)
    (htot : ∀ x y, le x y = true ∨ le y x = true)
    (htrans : ∀ x y z, le x y = true → le y z = true → le x z = true) (x : α) :
    ∀ (l : List α), l.Pairwise (fun u v => le u v = true) →
      (insertSorted le x l).Pairwise (fun u v => le u v = true) := by
  intro l
  induction l with
  | nil => intro _; simp [insertSorted]
  | cons z zs ih =>
    intro hp
    rw [List.pairwise_cons] at hp
    obtain ⟨hz, hzs⟩ := hp
    by_cases h : le x z
    · rw [insertSorted, if_pos h, List.pairwise_cons]
      constructor
      · intro b hb
        rcases List.mem_cons.mp hb with rfl | hb2
        · exact h
        · exact htrans x z b h (hz b hb2)
      · rw [List.pairwise_cons]
        exact ⟨hz, hzs⟩
    · rw [insertSorted, if_neg h, List.pairwise_cons]
      constructor
      · intro d hd
        rcases (mem_insertSorted le x d zs).1 hd with hdx | hd2
        · rw [hdx]
          rcases htot x z with h1 | h1
          · exact absurd h1 h
          · exact h1
        · exact hz d hd2
      · exact ih hzs

/-- The event sort produces a list sorted under its comparison. -/
lemma sortEvents_pairwise {α : Type} (le : α → α → Bool)
    (htot : ∀ x y, le x y = true ∨ le y x = true)
    (htrans : ∀ x y z, le x y = true → le y z = true → le x z = true) :
    ∀ (l : List α), (sortEvents le l).Pairwise (fun u v => le u v = true) := by
  intro l
  induction l with
  | nil => simp [sortEvents]
  | cons x xs ih => exact pairwise_insertSorted le htot htrans x _ ih

/-- The lexicographic `(timestamp, delta)` comparison is total. -/
lemma peakLe_total (x y : Int × Int) : peakLe x y = true ∨ peakLe y x = true := by
  simp only [peakLe, decide_eq_true_eq]
  omega

/-- The lexicographic `(timestamp, delta)` comparison is transitive. -/
lemma peakLe_trans (x y z : Int × Int) :
    peakLe x y = true → peakLe y z = true → peakLe x z = true := by
  simp only [peakLe, decide_eq_true_eq]
  omega

/-- The `(timestamp, delta)` key comparison of the solo sweep is total. -/
lemma soloLe_total (x y : Int × Int × Int) : soloLe x y = true ∨ soloLe y x = true := by
  simp only [soloLe, decide_eq_true_eq]
  omega

/-- The `(timestamp, delta)` key comparison of the solo sweep is
transitive. -/
lemma soloLe_trans (x y z : Int × Int × Int) :
    soloLe x y = true → soloLe y z = true → soloLe x z = true := by
  simp only [soloLe, decide_eq_true_eq]
  omega

/-- The overall peak of the sweep, ignoring the per-day dictionary. -/
def sweepMax : List (Int × Int) → Int → Int → Int
  | [], _cur, overall => overall
  | (_, delta) :: rest, cur, overall =>
    sweepMax rest (cur + delta) (if overall < cur + delta then cur + delta else overall)

/-- The overall component of the concurrency sweep does not depend on the
per-day dictionary. -/
lemma peakSweep_fst (tz : Tz) : ∀ (evs : List (Int × Int)) (cur overall : Int)
    (perDay : List (Int × Int)),
    (peakSweep tz evs cur overall perDay).fst = sweepMax evs cur overall := by
  intro evs
  induction evs with
  | nil => intro cur overall perDay; simp [peakSweep, sweepMax]
  | cons ev rest ih =>
    obtain ⟨ts, delta⟩ := ev
    intro cur overall perDay
    simp only [peakSweep, sweepMax]
    exact ih _ _ _

/-- C5: the sweeps sort their events by `(timestamp, delta)` ascending (a
totally ordered, transitive comparison, so the sorted stream is pairwise
ordered and a `-1` event sorts before a `+1` event at the same timestamp);
consequently, for two clamped intervals `[a,b)` and `[b,c)` meeting at `b`,
the leave at `b` is applied before the join at `b`, the occupancy counter
of the concurrency sweep never reaches 2 (its running maximum is 1), and
the solo sweep attributes `[a,b)` entirely to the first user and `[b,c)`
entirely to the second. -/
theorem C5_leave_before_join (a b c u1 u2 : Int) (tz : Tz)
    (hab : a < b) (hbc : b < c) (hu : u1 ≠ u2) :
    (∀ evs : List (Int × Int),
      (sortEvents peakLe evs).Pairwise (fun x y => peakLe x y = true)) ∧
    (∀ evs : List (Int × Int × Int),
      (sortEvents soloLe evs).Pairwise (fun x y => soloLe x y = true)) ∧
    sortEvents peakLe [(a, 1), (b, -1), (b, 1), (c, -1)]
      = [(a, 1), (b, -1), (b, 1), (c, -1)] ∧
    (peakSweep tz (sortEvents peakLe [(a, 1), (b, -1), (b, 1), (c, -1)]) 0 0 []).fst = 1 ∧
    soloSweep (sortEvents soloLe [(a, u1, 1), (b, u1, -1), (b, u2, 1), (c, u2, -1)]) [] none []
      = [(u1, b - a), (u2, c - b)] := by
  have p1 : peakLe (b, 1) (c, -1) = true := by
    simp only [peakLe, decide_eq_true_eq]
    omega
  have p2 : peakLe (b, -1) (b, 1) = true := by
    simp [peakLe]
  have p3 : peakLe (a, 1) (b, -1) = true := by
    simp only [peakLe, decide_eq_true_eq]
    omega
  have hps : sortEvents peakLe [(a, 1), (b, -1), (b, 1), (c, -1)]
      = [(a, 1), (b, -1), (b, 1), (c, -1)] := by
    simp only [sortEvents, insertSorted, p1, p2, p3, if_true]
  have s1 : soloLe (b, u2, 1) (c, u2, -1) = true := by
    simp only [soloLe, decide_eq_true_eq]
    omega
  have s2 : soloLe (b, u1, -1) (b, u2, 1) = true := by
    simp [soloLe]
  have s3 : soloLe (a, u1, 1) (b, u1, -1) = true := by
    simp only [soloLe, decide_eq_true_eq]
    omega
  have hss : sortEvents soloLe [(a, u1, 1), (b, u1, -1), (b, u2, 1), (c, u2, -1)]
      = [(a, u1, 1), (b, u1, -1), (b, u2, 1), (c, u2, -1)] := by
    simp only [sortEvents, insertSorted, s1, s2, s3, if_true]
  refine ⟨sortEvents_pairwise peakLe peakLe_total peakLe_trans,
    sortEvents_pairwise soloLe soloLe_total soloLe_trans, hps, ?_, ?_⟩
  · rw [hps, peakSweep_fst]
    norm_num [sweepMax]
  · rw [hss]
    simp [soloSweep, dictAdd, hu]

/-- Witness for `C5_leave_before_join` at `a = 0 < b = 1 < c = 2`,
users 1 and 2, the UTC zone. -/
theorem C5_leave_before_join_witness :
    (∀ evs : List (Int × Int),
      (sortEvents peakLe evs).Pairwise (fun x y => peakLe x y = true)) ∧
    (∀ evs : List (Int × Int × Int),
      (sortEvents soloLe evs).Pairwise (fun x y => soloLe x y = true)) ∧
    sortEvents peakLe [((0 : Int), (1 : Int)), (1, -1), (1, 1), (2, -1)]
      = [((0 : Int), (1 : Int)), (1, -1), (1, 1), (2, -1)] ∧
    (peakSweep utcTz (sortEvents peakLe [((0 : Int), (1 : Int)), (1, -1), (1, 1), (2, -1)])
      0 0 []).fst = 1 ∧
    soloSweep (sortEvents soloLe [((0 : Int), (1 : Int), (1 : Int)), (1, 1, -1), (1, 2, 1), (2, 2, -1)])
      [] none [] = [((1 : Int), (1 : Int) - 0), (2, 2 - 1)] :=
  C5_leave_before_join 0 1 2 1 2 utcTz (by decide) (by decide) (by decide)
